import Mathlib

/-!
Verification development for the directory-to-remote synchronization engine
of this repository (package pcscommand: the watch manager syncmgr, the
incremental scan scanAndUpload, the gitignore-style pattern matcher, and the
state loaders).  The Go code is shallowly embedded: strings are Lean String
values manipulated through list-of-character helpers that mirror the Go
standard library functions used by the source (strings.TrimSpace,
strings.TrimPrefix, path.Clean, filepath.Dir, filepath.Base, filepath.Join,
filepath.ToSlash on a Unix host where the separator is the forward slash).
External collaborators (WalkDir, RunUpload, uuid.New, the cipher behind
EncryptFile, the md5 hash of a file body and the outcome of os.Stat,
os.Rename) are modelled as inputs supplied to each scan pass, exactly at the
boundary where the source consumes them.  Filesystem effects performed by
the source are recorded as an event trace.
-/

/-- Embedding of the Go test c is a space, restricted to the ASCII
whitespace characters relevant to ignore files (strings.TrimSpace). -/
def isSpaceChar (c : Char) : Bool :=
  c == ' ' || c == '\t' || c == '\n' || c == '\r'

/-- Embedding of strings.TrimSpace. -/
def trimSpace (s : String) : String :=
  ⟨((s.toList.dropWhile isSpaceChar).reverse.dropWhile isSpaceChar).reverse⟩

/-- Boolean list version of the prefix test used by strings.HasPrefix. -/
def listPre : List Char → List Char → Bool
  | [], _ => true
  | _ :: _, [] => false
  | a :: as, b :: bs => a == b && listPre as bs

/-- Embedding of strings.TrimPrefix: removes pre from the front of s when s
starts with pre, otherwise returns s unchanged. -/
def trimPref (s pre : String) : String :=
  if listPre pre.toList s.toList then ⟨s.toList.drop pre.toList.length⟩ else s

/-- Splits a character list at every forward slash (the separator used by
path.Clean); adjacent slashes produce empty elements. -/
def splitSlash : List Char → List (List Char)
  | [] => [[]]
  | c :: rest =>
    let r := splitSlash rest
    if c == '/' then [] :: r
    else
      match r with
      | [] => [[c]]
      | h :: t => (c :: h) :: t

/-- The element-stack phase of Go path.Clean: drops empty and dot elements,
resolves dot-dot against the stack, keeping dot-dot only when the path is
not rooted and there is nothing to pop. -/
def cleanElems (rooted : Bool) (elems : List (List Char)) : List (List Char) :=
  (elems.foldl
    (fun st e =>
      if e.isEmpty || e == ['.'] then st
      else if e == ['.', '.'] then
        match st with
        | [] => if rooted then [] else [['.', '.']]
        | top :: rest => if top == ['.', '.'] then e :: st else rest
      else e :: st)
    []).reverse

/-- Joins path elements with a single slash. -/
def joinSlash : List (List Char) → List Char
  | [] => []
  | [e] => e
  | e :: rest => e ++ '/' :: joinSlash rest

/-- Embedding of Go path.Clean (equally of filepath.Clean on a Unix host):
lexical simplification of a slash-separated path. -/
def pathClean (p : String) : String :=
  if p == "" then "." else
  let l := p.toList
  let rooted := listPre ['/'] l
  let core := joinSlash (cleanElems rooted (splitSlash l))
  if rooted then ⟨'/' :: core⟩
  else if core.isEmpty then "." else ⟨core⟩

/-- Embedding of filepath.ToSlash on a Unix host, where the operating-system
separator already is the forward slash: the identity. -/
def toSlash (p : String) : String := p

/-- Splits a character list into the portion up to and including the final
slash and the remainder after it (the split used by Go path.Split). -/
def breakLastSlash : List Char → List Char × List Char
  | [] => ([], [])
  | c :: rest =>
    if rest.contains '/' then
      let r := breakLastSlash rest
      (c :: r.1, r.2)
    else if c == '/' then ([c], rest)
    else ([], c :: rest)

/-- Embedding of Go filepath.Dir on a Unix host: everything up to the final
separator, cleaned; a path without separator has directory dot. -/
def goDir (p : String) : String :=
  pathClean ⟨(breakLastSlash p.toList).1⟩

/-- Embedding of Go filepath.Base on a Unix host. -/
def goBase (p : String) : String :=
  if p == "" then "." else
  let l := (p.toList.reverse.dropWhile (· == '/')).reverse
  if l.isEmpty then "/" else ⟨(breakLastSlash l).2⟩

/-- Embedding of Go filepath.Join on two elements on a Unix host: empty
elements are dropped, the rest joined with a slash and cleaned. -/
def goJoin (a b : String) : String :=
  if a == "" && b == "" then ""
  else if a == "" then pathClean b
  else if b == "" then pathClean a
  else pathClean (a ++ "/" ++ b)

/-- The remote path separator, constant baidupcs.PathSeparator. -/
def PathSeparator : String := "/"

/-- A token of the simplified glob language produced by patternToRegexp:
double star becomes dot-star (crosses slashes), single star becomes a
slash-free repetition, the question mark becomes a single arbitrary
character, every other character is a quoted literal. -/
inductive GlobTok where
  | dstar
  | star
  | qmark
  | lit (c : Char)
deriving DecidableEq

/-- Embedding of the token scan inside patternToRegexp: translates the raw
pattern body into glob tokens, consuming a leading double star first. -/
def patternToks : List Char → List GlobTok
  | [] => []
  | '*' :: '*' :: r => .dstar :: patternToks r
  | '*' :: r => .star :: patternToks r
  | '?' :: r => .qmark :: patternToks r
  | c :: r => .lit c :: patternToks r

/-- Fuelled matcher for a glob token sequence against an entire string.
Every recursive call shortens the token list or the string, so fuel equal
to the sum of both lengths plus one never runs out; the zero-fuel branch is
unreachable from tokMatch below. -/
def tokMatchF : Nat → List GlobTok → List Char → Bool
  | 0, _, _ => false
  | _ + 1, [], [] => true
  | _ + 1, [], _ :: _ => false
  | fuel + 1, .dstar :: ts, [] => tokMatchF fuel ts []
  | fuel + 1, .dstar :: ts, c :: s =>
      tokMatchF fuel ts (c :: s) || tokMatchF fuel (.dstar :: ts) s
  | fuel + 1, .star :: ts, [] => tokMatchF fuel ts []
  | fuel + 1, .star :: ts, c :: s =>
      tokMatchF fuel ts (c :: s) || (c != '/' && tokMatchF fuel (.star :: ts) s)
  | _ + 1, .qmark :: _, [] => false
  | fuel + 1, .qmark :: ts, _ :: s => tokMatchF fuel ts s
  | _ + 1, .lit _ :: _, [] => false
  | fuel + 1, .lit a :: ts, c :: s => a == c && tokMatchF fuel ts s

/-- Matching a glob token sequence against an entire string, the semantics
of the anchored core regular expression built by patternToRegexp. -/
def tokMatch (ts : List GlobTok) (s : List Char) : Bool :=
  tokMatchF (ts.length + s.length + 1) ts s

/-- All suffixes of a string that start immediately after a slash: the
candidate match positions admitted by the optional dot-star-slash group of
an unanchored pattern. -/
def startsAfterSlash : List Char → List (List Char)
  | [] => []
  | c :: s => (if c == '/' then [s] else []) ++ startsAfterSlash s

/-- Semantics of the full regular expression built by patternToRegexp: an
anchored pattern must match the whole path, an unanchored pattern may also
match any suffix aligned immediately after a slash. -/
def reMatch (anchored : Bool) (ts : List GlobTok) (s : List Char) : Bool :=
  if anchored then tokMatch ts s
  else tokMatch ts s || (startsAfterSlash s).any fun suf => tokMatch ts suf

/-- Embedding of the ignorePattern record: the stripped rule body, the
negation flag, the directory-only flag, the anchor flag, and the compiled
matcher (held here as the token list interpreted by reMatch). -/
structure ignorePattern where
  raw : String
  neg : Bool
  dirOnly : Bool
  anchored : Bool
  toks : List GlobTok
deriving DecidableEq

/-- Embedding of one iteration of the rule-file parse loop inside
loadPatternsForWatch: trims the line, drops blank and comment lines, strips
the negation, anchor and directory-only markers, and compiles the body.
On this restricted language the regular-expression compilation in the
source never fails, so no rule is dropped at that stage. -/
def parseIgnoreLine (line : String) : Option ignorePattern :=
  let l := trimSpace line
  if l == "" || listPre ['#'] l.toList then none else
  let negP := listPre ['!'] l.toList
  let l1 := if negP then trimSpace ⟨l.toList.drop 1⟩ else l
  if negP && l1 == "" then none else
  let anchoredP := listPre ['/'] l1.toList
  let l2 := if anchoredP then trimPref l1 "/" else l1
  let dirOnlyP := l2.toList.getLast? == some '/'
  let l3 := if dirOnlyP then (⟨l2.toList.dropLast⟩ : String) else l2
  some ⟨l3, negP, dirOnlyP, anchoredP, patternToks l3.toList⟩

/-- Embedding of the parsing phase of loadPatternsForWatch, given the lines
of the ignore-rule file (file discovery and reading are external). -/
def loadPatterns (lines : List String) : List ignorePattern :=
  lines.filterMap parseIgnoreLine

/-- One iteration of the rule loop inside shouldIgnore: a directory-only
rule is passed over for a non-directory candidate, a matching rule
overwrites the verdict with the complement of its negation flag. -/
def ignoreStep (isDir : Bool) (rel : List Char) (ignored : Bool) (p : ignorePattern) : Bool :=
  if p.dirOnly && !isDir then ignored
  else if reMatch p.anchored p.toks rel then !p.neg
  else ignored

/-- Embedding of shouldIgnore, parametrized by the compiled pattern list
cached on the watch entry: evaluates the rules in file order over the
slash-normalized relative path, the last matching rule winning. -/
def shouldIgnore (patterns : List ignorePattern) (rel : String) (isDir : Bool) : Bool :=
  if patterns.isEmpty then false
  else patterns.foldl (ignoreStep isDir (toSlash rel).toList) false

/-- Lookup in an association list, the embedding of Go map indexing (first
binding for the key wins; insertions below keep keys unique). -/
def lookupA {α : Type} : List (String × α) → String → Option α
  | [], _ => none
  | (k, v) :: rest, key => if k == key then some v else lookupA rest key

/-- Map assignment on an association list: replaces the binding for an
existing key, appends a new binding otherwise. -/
def insertA {α : Type} : List (String × α) → String → α → List (String × α)
  | [], key, v => [(key, v)]
  | (k, w) :: rest, key, v =>
      if k == key then (k, v) :: rest else (k, w) :: insertA rest key v

/-- Embedding of syncFileState: the recorded fingerprint of one file. -/
structure syncFileState where
  ModTime : Int
  Size : Int
  MD5 : String
deriving DecidableEq

/-- Embedding of WatchEntry.  The stop channel is modelled by its presence
and the compiled ignore patterns are carried directly (the source caches
them on the entry after the first load); the two runtime fields and the
pattern cache carry the json dash tag and are never persisted. -/
structure WatchEntry where
  Local : String
  Remote : String
  Interval : Int
  Key : String
  Method : String
  IgnoreFile : String
  RandomFilename : Bool
  Files : List (String × syncFileState)
  FileNameMap : List (String × String)
  stopCh : Bool
  Running : Bool
  patterns : List ignorePattern
deriving DecidableEq

/-- Everything the scan loop observes about one walked path: the path
itself as produced by WalkDir, the os.Stat outcome, the result of md5sum
(none models a hash failure), and the outcomes of the external encrypt
collaborator, of the pre-upload os.Rename, and of the upload; the source
discards the upload outcome, so uploadOk is deliberately never read. -/
structure FileObs where
  path : String
  statErr : Bool
  isDir : Bool
  modTime : Int
  size : Int
  md5 : Option String
  encryptOk : Bool
  renameOk : Bool
  uploadOk : Bool
deriving DecidableEq

/-- Observable actions of one scan pass: the upload calls handed to the
RunUpload collaborator, the persistence of the registry, and the
filesystem operations on temporary artifacts. -/
inductive Ev where
  | upload (uploadPath savePath : String)
  | save
  | createTemp (p : String)
  | rename (src dst : String)
  | remove (p : String)
deriving DecidableEq

/-- The relative-path computation at the top of the scan loop: clean and
slash-normalize the walked path, strip the watch root, strip one leading
slash. -/
def relOf (w : WatchEntry) (f : FileObs) : String :=
  trimPref (trimPref (toSlash (pathClean f.path)) (toSlash w.Local)) "/"

/-- The remote destination computation of the scan loop: a relative
directory of dot collapses to the remote root, anything else is joined to
the remote root with the remote separator and cleaned. -/
def mkSavePath (remote rel : String) : String :=
  let relDir := goDir rel
  if relDir == "." then remote
  else pathClean (remote ++ PathSeparator ++ toSlash relDir)

/-- The fingerprint comparison of the scan loop: the file is unchanged when
a previous state is recorded for its relative path and its md5 equals the
current one. -/
def fingerprintSame (w : WatchEntry) (rel m : String) : Bool :=
  match lookupA w.Files rel with
  | some prev => prev.MD5 == m
  | none => false

/-- Tail of the scan loop once a file is accepted and its upload artifact
is chosen: invoke the upload collaborator, remove the artifact when it is
not the source file itself, record the new file state, persist. -/
def uploadAndRecord (w : WatchEntry) (k : Nat) (f : FileObs)
    (rel m uploadPath : String) (evsPre : List Ev) : WatchEntry × Nat × List Ev :=
  let savePath := mkSavePath w.Remote rel
  let removeEvs := if uploadPath == f.path then [] else [Ev.remove uploadPath]
  ({ w with Files := insertA w.Files rel ⟨f.modTime, f.size, m⟩ }, k,
    evsPre ++ [Ev.upload uploadPath savePath] ++ removeEvs ++ [Ev.save])

/-- The transform-and-upload tail of the scan loop, reached once a file
has passed the stat, hash, fingerprint and ignore checks: encrypt when a
key is configured (skipping the file on failure), mint a fresh random name
and record it in the name mapping when random naming is enabled, rename
the encrypted copy to that name (skipping on failure and leaving the copy
behind), and finally upload, clean up and record the new state. -/
def acceptFile (w : WatchEntry) (uuids : Nat → String) (k : Nat) (f : FileObs)
    (rel m : String) : WatchEntry × Nat × List Ev :=
  if w.Key == "" then
    uploadAndRecord w k f rel m f.path []
  else if !f.encryptOk then (w, k, []) else
  let tmp := f.path ++ ".encrypted"
  if w.RandomFilename then
    let newFileName := uuids k
    let w1 := { w with FileNameMap := insertA w.FileNameMap newFileName rel }
    if newFileName == goBase rel then
      uploadAndRecord w1 (k + 1) f rel m tmp [Ev.createTemp tmp]
    else if !f.renameOk then
      (w1, k + 1, [Ev.createTemp tmp])
    else
      let tempUploadPath := goJoin (goDir tmp) newFileName
      uploadAndRecord w1 (k + 1) f rel m tempUploadPath
        [Ev.createTemp tmp, Ev.rename tmp tempUploadPath]
  else
    uploadAndRecord w k f rel m tmp [Ev.createTemp tmp]

/-- Embedding of the body of the scan loop of scanAndUpload for one walked
path: skip stat failures and directories, compute the relative path, skip
on hash failure, skip when the fingerprint is unchanged, skip ignored
paths, then hand the file to the transform-and-upload tail.  The argument
uuids is the stream of values produced by the external uuid generator and
k the index of the next unused one. -/
def stepFile (w : WatchEntry) (uuids : Nat → String) (k : Nat) (f : FileObs) :
    WatchEntry × Nat × List Ev :=
  if f.statErr || f.isDir then (w, k, []) else
  let rel := relOf w f
  match f.md5 with
  | none => (w, k, [])
  | some m =>
    if fingerprintSame w rel m then (w, k, []) else
    if shouldIgnore w.patterns rel f.isDir then (w, k, []) else
    acceptFile w uuids k f rel m

/-- Embedding of one whole pass of scanAndUpload over the list of walked
paths (the WalkDir result), threading the watch state and the uuid cursor
and concatenating the event trace. -/
def scanAndUpload (w : WatchEntry) (uuids : Nat → String) (k : Nat) :
    List FileObs → WatchEntry × Nat × List Ev
  | [] => (w, k, [])
  | f :: rest =>
    let r1 := stepFile w uuids k f
    let r2 := scanAndUpload r1.1 uuids r1.2.1 rest
    (r2.1, r2.2.1, r1.2.2 ++ r2.2.2)

/-- Replays the filesystem operations of an event trace to obtain the set
of temporary artifacts still on disk afterwards. -/
def applyEv (temps : List String) : Ev → List String
  | .createTemp p => temps ++ [p]
  | .rename src dst => temps.erase src ++ [dst]
  | .remove p => temps.erase p
  | .upload _ _ => temps
  | .save => temps

/-- The temporary artifacts still on disk after an event trace, starting
from none. -/
def tempsAfter (evs : List Ev) : List String :=
  evs.foldl applyEv []

/-- The error outcomes of the registry API, as produced by the fmt.Errorf
calls of the source. -/
inductive SyncErr where
  | loadFailed
  | notFound
  | alreadyRunning
  | notRunning
deriving DecidableEq

/-- The durable sync_config.json as the load path of the manager sees it:
absent, unparseable, or parsed with a possibly absent watches map. -/
inductive DiskState where
  | missing
  | corrupt
  | stored (watches : Option (List (String × WatchEntry)))
deriving DecidableEq

/-- The in-process state of the sync manager: the durable file, the
in-memory configuration (none before the first load), and the number of
watch tasks spawned with the go statement so far. -/
structure MgrState where
  disk : DiskState
  cfg : Option (List (String × WatchEntry))
  tasks : Nat
deriving DecidableEq

/-- The stable watch identifier derived from the canonicalized local path.
The source hex-encodes the sha1 of the path string; the hash itself is
library code outside this repository, so the identifier is modelled by the
path string, which is equally deterministic and injective. -/
def watchID (localPath : String) : String :=
  localPath

/-- Runtime-only fields carry the json dash tag and are written to durable
storage at their zero values. -/
def stripRuntime (w : WatchEntry) : WatchEntry :=
  { w with stopCh := false, Running := false, patterns := [] }

/-- Embedding of the load method of the sync manager: a missing file
yields a fresh empty configuration, an unparseable file is a hard error
that leaves the in-memory configuration untouched, a parsed file with a
null watches map gets a fresh empty map.  Runtime-only fields are absent
from the stored form, so every load observes them at their zero values. -/
def mgrLoad (st : MgrState) : MgrState × Option SyncErr :=
  match st.disk with
  | .missing => ({ st with cfg := some [] }, none)
  | .corrupt => (st, some .loadFailed)
  | .stored none => ({ st with cfg := some [] }, none)
  | .stored (some ws) => ({ st with cfg := some (ws.map fun kw => (kw.1, stripRuntime kw.2)) }, none)

/-- Embedding of the save method of the sync manager: serializes the
in-memory configuration (a nil configuration is replaced by a fresh empty
one first) to durable storage, dropping the runtime-only fields. -/
def mgrSave (st : MgrState) : MgrState :=
  let cfg := st.cfg.getD []
  { st with cfg := some cfg, disk := DiskState.stored (some (cfg.map fun kw => (kw.1, stripRuntime kw.2))) }

/-- Embedding of StartWatch: reload the registry, look the watch up by the
identifier of the cleaned path, fail when absent, fail when the running
flag is set, otherwise create the stop channel, set the running flag,
spawn the watch task and persist. -/
def StartWatch (st : MgrState) (localPath : String) : MgrState × Option SyncErr :=
  match mgrLoad st with
  | (st1, some e) => (st1, some e)
  | (st1, none) =>
    let id := watchID (pathClean localPath)
    match lookupA (st1.cfg.getD []) id with
    | none => (st1, some .notFound)
    | some w =>
      if w.Running then (st1, some .alreadyRunning)
      else
        let w1 := { w with stopCh := true, Running := true }
        let st2 := { st1 with cfg := some (insertA (st1.cfg.getD []) id w1), tasks := st1.tasks + 1 }
        (mgrSave st2, none)

/-- Embedding of StopWatch: reload the registry, look the watch up, fail
when absent, fail when the running flag is clear, otherwise close and
clear the stop channel, clear the running flag and persist. -/
def StopWatch (st : MgrState) (localPath : String) : MgrState × Option SyncErr :=
  match mgrLoad st with
  | (st1, some e) => (st1, some e)
  | (st1, none) =>
    let id := watchID (pathClean localPath)
    match lookupA (st1.cfg.getD []) id with
    | none => (st1, some .notFound)
    | some w =>
      if !w.Running then (st1, some .notRunning)
      else
        let w1 := { w with Running := false, stopCh := false }
        let st2 := { st1 with cfg := some (insertA (st1.cfg.getD []) id w1) }
        (mgrSave st2, none)

/-- Embedding of the syncConfig record used by the standalone RunSync
state file. -/
structure syncConfig where
  EncryptKey : String
  EncryptMethod : String
  Files : List (String × syncFileState)
deriving DecidableEq

/-- The durable per-directory state file as loadState sees it: absent,
present but empty, unparseable, or parsed. -/
inductive StateDisk where
  | missing
  | emptyFile
  | corrupt
  | stored (cfg : syncConfig)
deriving DecidableEq

/-- Embedding of loadState: a missing or empty state file yields the fresh
empty configuration, an unparseable one is a hard error returned to the
caller, and parsed content is returned as read. -/
def loadState (d : StateDisk) : Except Unit syncConfig :=
  match d with
  | .missing => .ok ⟨"", "", []⟩
  | .emptyFile => .ok ⟨"", "", []⟩
  | .corrupt => .error ()
  | .stored cfg => .ok cfg

/-- A rule participates in the verdict for a candidate when it is not a
directory-only rule applied to a non-directory and its compiled expression
matches the candidate. -/
def patApplies (isDir : Bool) (rel : List Char) (p : ignorePattern) : Bool :=
  !(p.dirOnly && !isDir) && reMatch p.anchored p.toks rel

/-- The verdict of the last participating rule in file order: not ignored
when no rule participates, otherwise the complement of the negation flag
of the last participating rule. -/
def lastMatchIgnores (patterns : List ignorePattern) (rel : String) (isDir : Bool) : Bool :=
  match (patterns.filter (patApplies isDir (toSlash rel).toList)).getLast? with
  | none => false
  | some p => !p.neg

/-- Exemplar watch with no encryption and no recorded state, root at the
local directory slash-l and remote root slash-r. -/
def exPlainWatch : WatchEntry :=
  ⟨"/l", "/r", 60, "", "", "", false, [], [], false, false, []⟩

/-- Exemplar watch with an encryption key and random naming enabled. -/
def exKeyRandWatch : WatchEntry :=
  ⟨"/l", "/r", 60, "key", "aes-128-ctr", "", true, [], [], false, false, []⟩

/-- Exemplar watch with a recorded state for the file a.txt. -/
def exRecordedWatch : WatchEntry :=
  ⟨"/l", "/r", 60, "", "", "", false, [("a.txt", ⟨5, 10, "ma"⟩)], [], false, false, []⟩

/-- Exemplar uuid stream producing u1 then u2. -/
def exUuids : Nat → String :=
  fun n => if n = 0 then "u1" else "u2"

/-- Exemplar observation of the file a.txt with hash ma, all collaborators
succeeding. -/
def exObsA : FileObs :=
  ⟨"/l/a.txt", false, false, 5, 10, some "ma", true, true, true⟩

/-- Exemplar observation of the nested file sub slash b.txt. -/
def exObsB : FileObs :=
  ⟨"/l/sub/b.txt", false, false, 6, 11, some "mb", true, true, true⟩

/-- Exemplar observation of a.txt with changed content hash m2. -/
def exObsA2 : FileObs :=
  ⟨"/l/a.txt", false, false, 7, 12, some "m2", true, true, true⟩

/-- Exemplar observation of a.txt whose pre-upload rename fails. -/
def exObsARenameFail : FileObs :=
  ⟨"/l/a.txt", false, false, 5, 10, some "ma", true, false, true⟩

/-- Exemplar observation of a.txt whose upload fails; the scan loop cannot
observe this, which is the point of the claims about it. -/
def exObsAUploadFail : FileObs :=
  ⟨"/l/a.txt", false, false, 5, 10, some "ma", true, true, false⟩

/-- Exemplar observation of a.txt whose hash computation fails. -/
def exObsAMd5Fail : FileObs :=
  ⟨"/l/a.txt", false, false, 5, 10, none, true, true, true⟩

/-- Exemplar observation of a.txt whose encryption fails. -/
def exObsAEncFail : FileObs :=
  ⟨"/l/a.txt", false, false, 5, 10, some "ma", false, true, true⟩

/-- Exemplar registry on durable storage holding one watch for the local
directory slash-d, keyed by its watch identifier. -/
def exMgrDisk : MgrState :=
  ⟨.stored (some [(watchID "/d", ⟨"/d", "/r", 60, "", "", "", false, [], [], false, false, []⟩)]), none, 0⟩

theorem getLast?_cons_getD {α : Type} (a : α) (l : List α) :
    (a :: l).getLast? = some (l.getLast?.getD a) := by
  induction l with
  | nil => rfl
  | cons b t _ =>
    rw [List.getLast?_cons_cons]
    cases h : (b :: t).getLast? with
    | none => simp [List.getLast?_eq_none_iff] at h
    | some x => simp [h]

theorem foldl_ignoreStep (isDir : Bool) (rel : List Char) :
    ∀ (ps : List ignorePattern) (acc : Bool),
      ps.foldl (ignoreStep isDir rel) acc =
        match (ps.filter (patApplies isDir rel)).getLast? with
        | none => acc
        | some p => !p.neg := by
  intro ps
  induction ps with
  | nil => intro acc; rfl
  | cons p rest ih =>
    intro acc
    rw [List.foldl_cons, ih]
    by_cases hap : patApplies isDir rel p = true
    · have hstep : ignoreStep isDir rel acc p = !p.neg := by
        unfold patApplies at hap
        unfold ignoreStep
        rcases Bool.and_eq_true_iff.mp hap with ⟨h1, h2⟩
        simp only [Bool.not_eq_true'] at h1
        simp [h1, h2]
      rw [hstep, List.filter_cons_of_pos hap, getLast?_cons_getD]
      cases hl : (rest.filter (patApplies isDir rel)).getLast? with
      | none => simp
      | some q => simp
    · have hapf : patApplies isDir rel p = false := by
        simpa using hap
      have hstep : ignoreStep isDir rel acc p = acc := by
        unfold patApplies at hapf
        unfold ignoreStep
        by_cases hd : (p.dirOnly && !isDir) = true
        · simp [hd]
        · have hd2 : (p.dirOnly && !isDir) = false := by simpa using hd
          rw [hd2] at hapf
          simp only [Bool.not_false, Bool.true_and] at hapf
          simp [hd2, hapf]
      rw [hstep, List.filter_cons_of_neg (by simpa using hap)]

theorem shouldIgnore_eq_lastMatch (ps : List ignorePattern) (rel : String) (isDir : Bool) :
    shouldIgnore ps rel isDir = lastMatchIgnores ps rel isDir := by
  unfold shouldIgnore lastMatchIgnores
  by_cases h : ps.isEmpty = true
  · rw [List.isEmpty_iff] at h
    subst h
    simp
  · simp only [h, if_false]
    exact foldl_ignoreStep isDir (toSlash rel).toList ps false

/-- C5: ignore rules are evaluated in file order and the last matching
applicable rule determines the outcome, a later negated rule un-ignoring
and a later plain rule re-ignoring; with the rules star-dot-log followed by
bang-important-dot-log, the path important.log is not ignored while
debug.log is ignored. -/
theorem C5_last_match_wins :
    (∀ (ps : List ignorePattern) (rel : String) (isDir : Bool),
        shouldIgnore ps rel isDir = lastMatchIgnores ps rel isDir)
    ∧ shouldIgnore (loadPatterns ["*.log", "!important.log"]) "important.log" false = false
    ∧ shouldIgnore (loadPatterns ["*.log", "!important.log"]) "debug.log" false = true :=
  ⟨shouldIgnore_eq_lastMatch, by decide, by decide⟩

theorem shouldIgnore_filter_dirOnly (ps : List ignorePattern) (rel : String) :
    shouldIgnore (ps.filter fun p => !p.dirOnly) rel false = shouldIgnore ps rel false := by
  rw [shouldIgnore_eq_lastMatch, shouldIgnore_eq_lastMatch]
  unfold lastMatchIgnores
  rw [List.filter_filter]
  have hfun : (fun a => patApplies false ((toSlash rel).toList) a && !a.dirOnly)
      = patApplies false ((toSlash rel).toList) := by
    funext a
    unfold patApplies
    cases a.dirOnly <;> simp
  rw [hfun]

/-- C1: a file whose current hash equals the recorded fingerprint for its
relative path is skipped by the scan body: no upload, no state write, no
persistence, no change at all to the watch entry. -/
theorem C1_same_fingerprint_no_action (w : WatchEntry) (uuids : Nat → String) (k : Nat)
    (f : FileObs) (m : String)
    (hstat : f.statErr = false) (hdir : f.isDir = false) (hm : f.md5 = some m)
    (hsame : fingerprintSame w (relOf w f) m = true) :
    stepFile w uuids k f = (w, k, []) := by
  unfold stepFile
  rw [hstat, hdir, hm]
  simp [hsame]

/-- Witness for C1 at a concrete input: the recorded state of a.txt has
hash ma and the current hash is ma, so the scan body leaves everything
unchanged and emits no event. -/
theorem C1_same_fingerprint_no_action_witness :
    fingerprintSame exRecordedWatch (relOf exRecordedWatch exObsA) "ma" = true
    ∧ stepFile exRecordedWatch exUuids 0 exObsA = (exRecordedWatch, 0, []) :=
  ⟨by decide,
   C1_same_fingerprint_no_action exRecordedWatch exUuids 0 exObsA "ma"
     (by decide) (by decide) (by decide) (by decide)⟩

theorem acceptFile_patterns_const (w : WatchEntry) (uuids : Nat → String) (k : Nat)
    (f : FileObs) (rel m : String) :
    (acceptFile w uuids k f rel m).1.patterns = w.patterns := by
  unfold acceptFile uploadAndRecord
  dsimp only
  repeat' split
  all_goals rfl

theorem stepFile_patterns_const (w : WatchEntry) (uuids : Nat → String) (k : Nat)
    (f : FileObs) : (stepFile w uuids k f).1.patterns = w.patterns := by
  simp only [stepFile]
  repeat' split
  all_goals first | rfl | exact acceptFile_patterns_const w uuids k f _ _

theorem acceptFile_patterns_congr (w : WatchEntry) (ps : List ignorePattern)
    (uuids : Nat → String) (k : Nat) (f : FileObs) (rel m : String) :
    acceptFile { w with patterns := ps } uuids k f rel m
      = ({ (acceptFile w uuids k f rel m).1 with patterns := ps },
         (acceptFile w uuids k f rel m).2.1, (acceptFile w uuids k f rel m).2.2) := by
  by_cases hkey : w.Key = ""
  · simp [acceptFile, uploadAndRecord, hkey]
  · by_cases henc : f.encryptOk = true
    · by_cases hrand : w.RandomFilename = true
      · by_cases hname : uuids k = goBase rel
        · simp [acceptFile, uploadAndRecord, hkey, henc, hrand, hname]
        · by_cases hren : f.renameOk = true
          · simp [acceptFile, uploadAndRecord, hkey, henc, hrand, hname, hren]
          · have hren2 : f.renameOk = false := by simpa using hren
            simp [acceptFile, uploadAndRecord, hkey, henc, hrand, hname, hren2]
      · have hrand2 : w.RandomFilename = false := by simpa using hrand
        simp [acceptFile, uploadAndRecord, hkey, henc, hrand2]
    · have henc2 : f.encryptOk = false := by simpa using henc
      simp [acceptFile, hkey, henc2]

theorem stepFile_patterns_congr (w : WatchEntry) (ps : List ignorePattern)
    (uuids : Nat → String) (k : Nat) (f : FileObs)
    (h : ∀ rel, shouldIgnore ps rel false = shouldIgnore w.patterns rel false) :
    stepFile { w with patterns := ps } uuids k f
      = ({ (stepFile w uuids k f).1 with patterns := ps },
         (stepFile w uuids k f).2.1, (stepFile w uuids k f).2.2) := by
  by_cases hstat : (f.statErr || f.isDir) = true
  · simp [stepFile, hstat]
  · have hstat2 : (f.statErr || f.isDir) = false := by simpa using hstat
    have hse : f.statErr = false := (Bool.or_eq_false_iff.mp hstat2).1
    have hdir : f.isDir = false := (Bool.or_eq_false_iff.mp hstat2).2
    cases hm : f.md5 with
    | none => simp [stepFile, hstat2, hse, hdir, hm]
    | some m =>
      have hrel : relOf { w with patterns := ps } f = relOf w f := rfl
      have hfpr : fingerprintSame { w with patterns := ps } (relOf w f) m
          = fingerprintSame w (relOf w f) m := rfl
      by_cases hfp : fingerprintSame w (relOf w f) m = true
      · simp [stepFile, hstat2, hse, hdir, hm, hrel, hfpr, hfp]
      · have hfp2 : fingerprintSame w (relOf w f) m = false := by simpa using hfp
        by_cases hig : shouldIgnore w.patterns (relOf w f) false = true
        · have higp : shouldIgnore ps (relOf w f) false = true := by rw [h]; exact hig
          simp [stepFile, hstat2, hse, hm, hrel, hfpr, hfp2, hdir, hig, higp]
        · have hig2 : shouldIgnore w.patterns (relOf w f) false = false := by simpa using hig
          have higp : shouldIgnore ps (relOf w f) false = false := by rw [h]; exact hig2
          have hred : stepFile { w with patterns := ps } uuids k f
              = acceptFile { w with patterns := ps } uuids k f (relOf w f) m := by
            simp [stepFile, hstat2, hse, hm, hrel, hfpr, hfp2, hdir, higp]
          have hred2 : stepFile w uuids k f = acceptFile w uuids k f (relOf w f) m := by
            simp [stepFile, hstat2, hse, hm, hfp2, hdir, hig2]
          rw [hred, hred2]
          exact acceptFile_patterns_congr w ps uuids k f (relOf w f) m

theorem scanAndUpload_patterns_congr (ps : List ignorePattern) (uuids : Nat → String) :
    ∀ (files : List FileObs) (w : WatchEntry) (k : Nat),
      (∀ rel, shouldIgnore ps rel false = shouldIgnore w.patterns rel false) →
      scanAndUpload { w with patterns := ps } uuids k files
        = ({ (scanAndUpload w uuids k files).1 with patterns := ps },
           (scanAndUpload w uuids k files).2.1, (scanAndUpload w uuids k files).2.2) := by
  intro files
  induction files with
  | nil => intro w k h; rfl
  | cons f rest ih =>
    intro w k h
    simp only [scanAndUpload]
    rw [stepFile_patterns_congr w ps uuids k f h]
    have hh : ∀ rel, shouldIgnore ps rel false
        = shouldIgnore (stepFile w uuids k f).1.patterns rel false := by
      intro rel
      rw [stepFile_patterns_const]
      exact h rel
    rw [ih (stepFile w uuids k f).1 (stepFile w uuids k f).2.1 hh]

theorem append_encrypted_ne (s : String) : s ++ ".encrypted" ≠ s := by
  intro h
  have h2 : (s ++ ".encrypted").length = s.length := by rw [h]
  rw [String.length_append] at h2
  have h3 : (".encrypted" : String).length = 10 := rfl
  omega

theorem stepFile_uploadOk_irrel (w : WatchEntry) (uuids : Nat → String) (k : Nat)
    (f : FileObs) (b : Bool) :
    stepFile w uuids k { f with uploadOk := b } = stepFile w uuids k f := rfl

theorem stepFile_eq_acceptFile (w : WatchEntry) (uuids : Nat → String) (k : Nat)
    (f : FileObs) (m : String)
    (hstat : f.statErr = false) (hdir : f.isDir = false) (hm : f.md5 = some m)
    (hfp : fingerprintSame w (relOf w f) m = false)
    (hig : shouldIgnore w.patterns (relOf w f) false = false) :
    stepFile w uuids k f = acceptFile w uuids k f (relOf w f) m := by
  simp [stepFile, hstat, hdir, hm, hfp, hig]

theorem uploadAndRecord_files (w : WatchEntry) (k : Nat) (f : FileObs)
    (rel m upPath : String) (evsPre : List Ev) :
    (uploadAndRecord w k f rel m upPath evsPre).1.Files
      = insertA w.Files rel ⟨f.modTime, f.size, m⟩ := rfl

theorem uploadAndRecord_save_mem (w : WatchEntry) (k : Nat) (f : FileObs)
    (rel m upPath : String) (evsPre : List Ev) :
    Ev.save ∈ (uploadAndRecord w k f rel m upPath evsPre).2.2 := by
  unfold uploadAndRecord
  simp

theorem uploadAndRecord_mem_upload (w : WatchEntry) (k : Nat) (f : FileObs)
    (rel m upPath : String) (evsPre : List Ev) (up sp : String)
    (h : Ev.upload up sp ∈ (uploadAndRecord w k f rel m upPath evsPre).2.2) :
    Ev.upload up sp ∈ evsPre ∨ (up = upPath ∧ sp = mkSavePath w.Remote rel) := by
  unfold uploadAndRecord at h
  dsimp only at h
  simp only [List.mem_append, List.mem_singleton] at h
  rcases h with ((h | h) | h) | h
  · exact Or.inl h
  · injection h with h1 h2
    exact Or.inr ⟨h1, h2⟩
  · exfalso
    revert h
    split <;> simp
  · exact absurd h (by simp)

theorem uploadAndRecord_mem_remove (w : WatchEntry) (k : Nat) (f : FileObs)
    (rel m upPath : String) (evsPre : List Ev) (p : String)
    (h : Ev.remove p ∈ (uploadAndRecord w k f rel m upPath evsPre).2.2) :
    Ev.remove p ∈ evsPre ∨ (p = upPath ∧ upPath ≠ f.path) := by
  unfold uploadAndRecord at h
  dsimp only at h
  simp only [List.mem_append, List.mem_singleton] at h
  rcases h with ((h | h) | h) | h
  · exact Or.inl h
  · exact absurd h (by simp)
  · revert h
    split
    · simp
    · rename_i hne
      intro h
      rw [List.mem_singleton] at h
      injection h with h1
      exact Or.inr ⟨h1, by simpa using hne⟩
  · exact absurd h (by simp)

theorem uploadAndRecord_mem_rename (w : WatchEntry) (k : Nat) (f : FileObs)
    (rel m upPath : String) (evsPre : List Ev) (a b : String)
    (h : Ev.rename a b ∈ (uploadAndRecord w k f rel m upPath evsPre).2.2) :
    Ev.rename a b ∈ evsPre := by
  unfold uploadAndRecord at h
  dsimp only at h
  simp only [List.mem_append, List.mem_singleton] at h
  rcases h with ((h | h) | h) | h
  · exact h
  · exact absurd h (by simp)
  · exfalso
    revert h
    split <;> simp
  · exact absurd h (by simp)

theorem acceptFile_upload_spec (w : WatchEntry) (uuids : Nat → String) (k : Nat)
    (f : FileObs) (rel m up sp : String)
    (hup : Ev.upload up sp ∈ (acceptFile w uuids k f rel m).2.2) :
    (acceptFile w uuids k f rel m).1.Files = insertA w.Files rel ⟨f.modTime, f.size, m⟩
    ∧ Ev.save ∈ (acceptFile w uuids k f rel m).2.2
    ∧ sp = mkSavePath w.Remote rel := by
  by_cases hkey : w.Key = ""
  · have he : acceptFile w uuids k f rel m = uploadAndRecord w k f rel m f.path [] := by
      simp [acceptFile, hkey]
    rw [he] at hup ⊢
    refine ⟨uploadAndRecord_files .., uploadAndRecord_save_mem .., ?_⟩
    rcases uploadAndRecord_mem_upload w k f rel m f.path [] up sp hup with h | h
    · simp at h
    · exact h.2
  · by_cases henc : f.encryptOk = true
    · by_cases hrand : w.RandomFilename = true
      · by_cases hname : uuids k = goBase rel
        · have he : acceptFile w uuids k f rel m
              = uploadAndRecord { w with FileNameMap := insertA w.FileNameMap (uuids k) rel }
                  (k + 1) f rel m (f.path ++ ".encrypted")
                  [Ev.createTemp (f.path ++ ".encrypted")] := by
            simp [acceptFile, hkey, henc, hrand, hname]
          rw [he] at hup ⊢
          refine ⟨uploadAndRecord_files .., uploadAndRecord_save_mem .., ?_⟩
          rcases uploadAndRecord_mem_upload _ _ _ _ _ _ _ up sp hup with h | h
          · simp at h
          · exact h.2
        · by_cases hren : f.renameOk = true
          · have he : acceptFile w uuids k f rel m
                = uploadAndRecord { w with FileNameMap := insertA w.FileNameMap (uuids k) rel }
                    (k + 1) f rel m (goJoin (goDir (f.path ++ ".encrypted")) (uuids k))
                    [Ev.createTemp (f.path ++ ".encrypted"),
                     Ev.rename (f.path ++ ".encrypted")
                       (goJoin (goDir (f.path ++ ".encrypted")) (uuids k))] := by
              simp [acceptFile, hkey, henc, hrand, hname, hren]
            rw [he] at hup ⊢
            refine ⟨uploadAndRecord_files .., uploadAndRecord_save_mem .., ?_⟩
            rcases uploadAndRecord_mem_upload _ _ _ _ _ _ _ up sp hup with h | h
            · simp at h
            · exact h.2
          · have hren2 : f.renameOk = false := by simpa using hren
            have he : acceptFile w uuids k f rel m
                = ({ w with FileNameMap := insertA w.FileNameMap (uuids k) rel }, k + 1,
                   [Ev.createTemp (f.path ++ ".encrypted")]) := by
              simp [acceptFile, hkey, henc, hrand, hname, hren2]
            rw [he] at hup
            simp at hup
      · have hrand2 : w.RandomFilename = false := by simpa using hrand
        have he : acceptFile w uuids k f rel m
            = uploadAndRecord w k f rel m (f.path ++ ".encrypted")
                [Ev.createTemp (f.path ++ ".encrypted")] := by
          simp [acceptFile, hkey, henc, hrand2]
        rw [he] at hup ⊢
        refine ⟨uploadAndRecord_files .., uploadAndRecord_save_mem .., ?_⟩
        rcases uploadAndRecord_mem_upload _ _ _ _ _ _ _ up sp hup with h | h
        · simp at h
        · exact h.2
    · have henc2 : f.encryptOk = false := by simpa using henc
      have he : acceptFile w uuids k f rel m = (w, k, []) := by
        simp [acceptFile, hkey, henc2]
      rw [he] at hup
      simp at hup

theorem stepFile_upload_spec (w : WatchEntry) (uuids : Nat → String) (k : Nat)
    (f : FileObs) (up sp : String)
    (hup : Ev.upload up sp ∈ (stepFile w uuids k f).2.2) :
    (∃ m, f.md5 = some m
        ∧ (stepFile w uuids k f).1.Files
            = insertA w.Files (relOf w f) ⟨f.modTime, f.size, m⟩)
    ∧ Ev.save ∈ (stepFile w uuids k f).2.2
    ∧ sp = mkSavePath w.Remote (relOf w f) := by
  by_cases hstat : (f.statErr || f.isDir) = true
  · simp [stepFile, hstat] at hup
  · have hstat2 : (f.statErr || f.isDir) = false := by simpa using hstat
    have hse : f.statErr = false := (Bool.or_eq_false_iff.mp hstat2).1
    have hdir : f.isDir = false := (Bool.or_eq_false_iff.mp hstat2).2
    cases hm : f.md5 with
    | none => simp [stepFile, hstat2, hse, hdir, hm] at hup
    | some m =>
      by_cases hfp : fingerprintSame w (relOf w f) m = true
      · simp [stepFile, hstat2, hse, hdir, hm, hfp] at hup
      · have hfp2 : fingerprintSame w (relOf w f) m = false := by simpa using hfp
        by_cases hig : shouldIgnore w.patterns (relOf w f) false = true
        · simp [stepFile, hstat2, hse, hdir, hm, hfp2, hig] at hup
        · have hig2 : shouldIgnore w.patterns (relOf w f) false = false := by simpa using hig
          have he := stepFile_eq_acceptFile w uuids k f m hse hdir hm hfp2 hig2
          rw [he] at hup ⊢
          obtain ⟨h1, h2, h3⟩ := acceptFile_upload_spec w uuids k f (relOf w f) m up sp hup
          exact ⟨⟨m, rfl, h1⟩, h2, h3⟩

/-- C10: directory-only ignore rules never cause anything to be skipped in
the incremental scan: with a non-directory candidate every directory-only
pattern is passed over by shouldIgnore, and since the scan filters
directories out before the ignore check, a whole pass behaves identically
when all directory-only rules are deleted from the compiled pattern list. -/
theorem C10_dirOnly_rules_inert :
    (∀ (ps : List ignorePattern) (rel : String),
        shouldIgnore (ps.filter fun p => !p.dirOnly) rel false = shouldIgnore ps rel false)
    ∧ (∀ (w : WatchEntry) (uuids : Nat → String) (k : Nat) (files : List FileObs),
        scanAndUpload { w with patterns := w.patterns.filter fun p => !p.dirOnly } uuids k files
          = ({ (scanAndUpload w uuids k files).1 with
                patterns := w.patterns.filter fun p => !p.dirOnly },
             (scanAndUpload w uuids k files).2.1, (scanAndUpload w uuids k files).2.2)) := by
  constructor
  · exact shouldIgnore_filter_dirOnly
  · intro w uuids k files
    exact scanAndUpload_patterns_congr _ uuids files w k
      fun rel => shouldIgnore_filter_dirOnly w.patterns rel

/-- C2 corrected: with anonymization enabled in incremental mode, every
accepted upload of a changed file mints a fresh name from the external uuid
generator and appends a new mapping entry from that fresh name to the
relative path; the existing mapping is never consulted, so the name is not
reused across re-uploads. -/
theorem C2_amended_fresh_name_per_upload (w : WatchEntry) (uuids : Nat → String) (k : Nat)
    (f : FileObs) (m : String)
    (hstat : f.statErr = false) (hdir : f.isDir = false) (hm : f.md5 = some m)
    (hfp : fingerprintSame w (relOf w f) m = false)
    (hig : shouldIgnore w.patterns (relOf w f) false = false)
    (hkey : w.Key ≠ "") (henc : f.encryptOk = true) (hrand : w.RandomFilename = true) :
    (stepFile w uuids k f).1.FileNameMap
        = insertA w.FileNameMap (uuids k) (relOf w f)
    ∧ (stepFile w uuids k f).2.1 = k + 1 := by
  rw [stepFile_eq_acceptFile w uuids k f m hstat hdir hm hfp hig]
  by_cases hname : uuids k = goBase (relOf w f)
  · simp [acceptFile, hkey, henc, hrand, hname, uploadAndRecord]
  · by_cases hren : f.renameOk = true
    · simp [acceptFile, hkey, henc, hrand, hname, hren, uploadAndRecord]
    · have hren2 : f.renameOk = false := by simpa using hren
      simp [acceptFile, hkey, henc, hrand, hname, hren2]

/-- Witness for the amended C2 at a concrete input: the first upload of
a.txt consumes the generator value u1 and records the mapping entry. -/
theorem C2_amended_fresh_name_per_upload_witness :
    exKeyRandWatch.Key ≠ ""
    ∧ (stepFile exKeyRandWatch exUuids 0 exObsA).1.FileNameMap
        = insertA exKeyRandWatch.FileNameMap (exUuids 0) (relOf exKeyRandWatch exObsA)
    ∧ (stepFile exKeyRandWatch exUuids 0 exObsA).2.1 = 0 + 1 :=
  ⟨by decide,
   (C2_amended_fresh_name_per_upload exKeyRandWatch exUuids 0 exObsA "ma"
      (by decide) (by decide) (by decide) (by decide) (by decide) (by decide)
      (by decide) (by decide)).1,
   (C2_amended_fresh_name_per_upload exKeyRandWatch exUuids 0 exObsA "ma"
      (by decide) (by decide) (by decide) (by decide) (by decide) (by decide)
      (by decide) (by decide)).2⟩

/-- Counterexample to C2 as stated: a.txt is first uploaded under the
anonymized name u1; after a content change the second pass assigns the
fresh name u2 instead of reusing u1, the mapping gains a second entry for
the same relative path, and the re-upload is performed under u2. -/
theorem C2_counterexample_name_not_reused :
    (scanAndUpload exKeyRandWatch exUuids 0 [exObsA]).1.FileNameMap = [("u1", "a.txt")]
    ∧ (scanAndUpload (scanAndUpload exKeyRandWatch exUuids 0 [exObsA]).1 exUuids
          (scanAndUpload exKeyRandWatch exUuids 0 [exObsA]).2.1 [exObsA2]).1.FileNameMap
        = [("u1", "a.txt"), ("u2", "a.txt")]
    ∧ Ev.upload "/l/u2" "/r"
        ∈ (scanAndUpload (scanAndUpload exKeyRandWatch exUuids 0 [exObsA]).1 exUuids
            (scanAndUpload exKeyRandWatch exUuids 0 [exObsA]).2.1 [exObsA2]).2.2
    ∧ ¬ Ev.upload "/l/u1" "/r"
        ∈ (scanAndUpload (scanAndUpload exKeyRandWatch exUuids 0 [exObsA]).1 exUuids
            (scanAndUpload exKeyRandWatch exUuids 0 [exObsA]).2.1 [exObsA2]).2.2 := by
  decide

/-- C3 corrected: whenever the scan body hands a file to the upload
collaborator it records the new file state and persists the registry
afterwards unconditionally; the outcome of the upload is not observed by
the scan body at all, so a failed upload records state exactly like a
successful one. -/
theorem C3_amended_state_recorded_regardless_of_upload (w : WatchEntry)
    (uuids : Nat → String) (k : Nat) (f : FileObs) (up sp : String)
    (hup : Ev.upload up sp ∈ (stepFile w uuids k f).2.2) :
    (∃ m, f.md5 = some m
        ∧ (stepFile w uuids k f).1.Files
            = insertA w.Files (relOf w f) ⟨f.modTime, f.size, m⟩)
    ∧ Ev.save ∈ (stepFile w uuids k f).2.2
    ∧ ∀ b, stepFile w uuids k { f with uploadOk := b } = stepFile w uuids k f := by
  obtain ⟨h1, h2, _⟩ := stepFile_upload_spec w uuids k f up sp hup
  exact ⟨h1, h2, fun b => stepFile_uploadOk_irrel w uuids k f b⟩

/-- Witness for the amended C3 at a concrete input with a failing upload. -/
theorem C3_amended_state_recorded_regardless_of_upload_witness :
    Ev.upload "/l/a.txt" "/r" ∈ (stepFile exPlainWatch exUuids 0 exObsAUploadFail).2.2
    ∧ Ev.save ∈ (stepFile exPlainWatch exUuids 0 exObsAUploadFail).2.2 :=
  ⟨by decide,
   (C3_amended_state_recorded_regardless_of_upload exPlainWatch exUuids 0 exObsAUploadFail
      "/l/a.txt" "/r" (by decide)).2.1⟩

/-- Counterexample to C3 as stated: the upload of a.txt fails (the upload
collaborator outcome bit is false), yet the scan body still invokes the
upload, records the new file state for a.txt and persists, instead of
leaving the entry unchanged. -/
theorem C3_counterexample_failed_upload_still_records_state :
    exObsAUploadFail.uploadOk = false
    ∧ Ev.upload "/l/a.txt" "/r" ∈ (stepFile exPlainWatch exUuids 0 exObsAUploadFail).2.2
    ∧ Ev.save ∈ (stepFile exPlainWatch exUuids 0 exObsAUploadFail).2.2
    ∧ lookupA exPlainWatch.Files "a.txt" = none
    ∧ lookupA (stepFile exPlainWatch exUuids 0 exObsAUploadFail).1.Files "a.txt"
        = some ⟨5, 10, "ma"⟩ := by
  decide

/-- C6: a hash failure, an encryption failure or a pre-upload rename
failure makes the scan body skip just that file: nothing is uploaded for
it, its file-state entry is untouched, the pass is not aborted and simply
continues with the remaining files. -/
theorem C6_transient_failures_skip_only_that_file :
    (∀ (w : WatchEntry) (uuids : Nat → String) (k : Nat) (f : FileObs) (rest : List FileObs),
        f.statErr = false → f.isDir = false → f.md5 = none →
        stepFile w uuids k f = (w, k, [])
          ∧ scanAndUpload w uuids k (f :: rest) = scanAndUpload w uuids k rest)
    ∧ (∀ (w : WatchEntry) (uuids : Nat → String) (k : Nat) (f : FileObs) (rest : List FileObs)
          (m : String),
        f.statErr = false → f.isDir = false → f.md5 = some m →
        fingerprintSame w (relOf w f) m = false →
        shouldIgnore w.patterns (relOf w f) false = false →
        w.Key ≠ "" → f.encryptOk = false →
        stepFile w uuids k f = (w, k, [])
          ∧ scanAndUpload w uuids k (f :: rest) = scanAndUpload w uuids k rest)
    ∧ (∀ (w : WatchEntry) (uuids : Nat → String) (k : Nat) (f : FileObs) (rest : List FileObs)
          (m : String),
        f.statErr = false → f.isDir = false → f.md5 = some m →
        fingerprintSame w (relOf w f) m = false →
        shouldIgnore w.patterns (relOf w f) false = false →
        w.Key ≠ "" → f.encryptOk = true → w.RandomFilename = true →
        uuids k ≠ goBase (relOf w f) → f.renameOk = false →
        (stepFile w uuids k f).1.Files = w.Files
          ∧ (stepFile w uuids k f).2.2 = [Ev.createTemp (f.path ++ ".encrypted")]
          ∧ scanAndUpload w uuids k (f :: rest)
              = ((scanAndUpload (stepFile w uuids k f).1 uuids (k + 1) rest).1,
                 (scanAndUpload (stepFile w uuids k f).1 uuids (k + 1) rest).2.1,
                 Ev.createTemp (f.path ++ ".encrypted")
                   :: (scanAndUpload (stepFile w uuids k f).1 uuids (k + 1) rest).2.2)) := by
  refine ⟨?_, ?_, ?_⟩
  · intro w uuids k f rest h1 h2 h3
    have hstep : stepFile w uuids k f = (w, k, []) := by
      simp [stepFile, h1, h2, h3]
    refine ⟨hstep, ?_⟩
    simp only [scanAndUpload]
    rw [hstep]
    simp
  · intro w uuids k f rest m h1 h2 h3 h4 h5 h6 h7
    have hstep : stepFile w uuids k f = (w, k, []) := by
      rw [stepFile_eq_acceptFile w uuids k f m h1 h2 h3 h4 h5]
      simp [acceptFile, h6, h7]
    refine ⟨hstep, ?_⟩
    simp only [scanAndUpload]
    rw [hstep]
    simp
  · intro w uuids k f rest m h1 h2 h3 h4 h5 h6 h7 h8 h9 h10
    have hstep : stepFile w uuids k f
        = ({ w with FileNameMap := insertA w.FileNameMap (uuids k) (relOf w f) }, k + 1,
           [Ev.createTemp (f.path ++ ".encrypted")]) := by
      rw [stepFile_eq_acceptFile w uuids k f m h1 h2 h3 h4 h5]
      simp [acceptFile, h6, h7, h8, h9, h10]
    refine ⟨by rw [hstep], by rw [hstep], ?_⟩
    simp only [scanAndUpload]
    rw [hstep]
    simp

/-- Witness for C6 at concrete inputs: a hash failure, an encryption
failure and a rename failure each leave the recorded file states unchanged
and let the pass continue. -/
theorem C6_transient_failures_skip_only_that_file_witness :
    exObsAMd5Fail.md5 = none
    ∧ stepFile exPlainWatch exUuids 0 exObsAMd5Fail = (exPlainWatch, 0, [])
    ∧ exObsAEncFail.encryptOk = false
    ∧ stepFile exKeyRandWatch exUuids 0 exObsAEncFail = (exKeyRandWatch, 0, [])
    ∧ exObsARenameFail.renameOk = false
    ∧ (stepFile exKeyRandWatch exUuids 0 exObsARenameFail).1.Files = exKeyRandWatch.Files
    ∧ (stepFile exKeyRandWatch exUuids 0 exObsARenameFail).2.2
        = [Ev.createTemp ("/l/a.txt" ++ ".encrypted")] :=
  ⟨by decide,
   (C6_transient_failures_skip_only_that_file.1 exPlainWatch exUuids 0 exObsAMd5Fail []
      (by decide) (by decide) (by decide)).1,
   by decide,
   (C6_transient_failures_skip_only_that_file.2.1 exKeyRandWatch exUuids 0 exObsAEncFail [] "ma"
      (by decide) (by decide) (by decide) (by decide) (by decide) (by decide) (by decide)).1,
   by decide,
   (C6_transient_failures_skip_only_that_file.2.2 exKeyRandWatch exUuids 0 exObsARenameFail [] "ma"
      (by decide) (by decide) (by decide) (by decide) (by decide) (by decide) (by decide)
      (by decide) (by decide) (by decide)).1,
   (C6_transient_failures_skip_only_that_file.2.2 exKeyRandWatch exUuids 0 exObsARenameFail [] "ma"
      (by decide) (by decide) (by decide) (by decide) (by decide) (by decide) (by decide)
      (by decide) (by decide) (by decide)).2.1⟩

theorem acceptFile_cleanup_spec (w : WatchEntry) (uuids : Nat → String) (k : Nat)
    (f : FileObs) (rel m : String)
    (hcol : goJoin (goDir (f.path ++ ".encrypted")) (uuids k) ≠ f.path) :
    ((∃ up sp, Ev.upload up sp ∈ (acceptFile w uuids k f rel m).2.2) →
        tempsAfter (acceptFile w uuids k f rel m).2.2 = [])
    ∧ (∀ p, Ev.remove p ∈ (acceptFile w uuids k f rel m).2.2 → p ≠ f.path)
    ∧ (∀ a b, Ev.rename a b ∈ (acceptFile w uuids k f rel m).2.2 → a ≠ f.path) := by
  have hneq := append_encrypted_ne f.path
  have hbeq : ((f.path ++ ".encrypted") == f.path) = false := by
    rw [beq_eq_false_iff_ne]
    exact hneq
  by_cases hkey : w.Key = ""
  · have he : (acceptFile w uuids k f rel m).2.2
        = [Ev.upload f.path (mkSavePath w.Remote rel), Ev.save] := by
      simp [acceptFile, hkey, uploadAndRecord]
    rw [he]
    refine ⟨fun _ => by simp [tempsAfter, applyEv], ?_, ?_⟩
    · intro p hp
      simp at hp
    · intro a b hab
      simp at hab
  · by_cases henc : f.encryptOk = true
    · by_cases hrand : w.RandomFilename = true
      · by_cases hname : uuids k = goBase rel
        · have he : (acceptFile w uuids k f rel m).2.2
              = [Ev.createTemp (f.path ++ ".encrypted"),
                 Ev.upload (f.path ++ ".encrypted") (mkSavePath w.Remote rel),
                 Ev.remove (f.path ++ ".encrypted"), Ev.save] := by
            simp [acceptFile, hkey, henc, hrand, hname, uploadAndRecord, hbeq]
          rw [he]
          refine ⟨fun _ => by simp [tempsAfter, applyEv], ?_, ?_⟩
          · intro p hp
            simp at hp
            rw [hp]
            exact hneq
          · intro a b hab
            simp at hab
        · by_cases hren : f.renameOk = true
          · have hbcol : ((goJoin (goDir (f.path ++ ".encrypted")) (uuids k)) == f.path)
                = false := by
              rw [beq_eq_false_iff_ne]
              exact hcol
            have he : (acceptFile w uuids k f rel m).2.2
                = [Ev.createTemp (f.path ++ ".encrypted"),
                   Ev.rename (f.path ++ ".encrypted")
                     (goJoin (goDir (f.path ++ ".encrypted")) (uuids k)),
                   Ev.upload (goJoin (goDir (f.path ++ ".encrypted")) (uuids k))
                     (mkSavePath w.Remote rel),
                   Ev.remove (goJoin (goDir (f.path ++ ".encrypted")) (uuids k)), Ev.save] := by
              simp [acceptFile, hkey, henc, hrand, hname, hren, uploadAndRecord, hbcol]
            rw [he]
            refine ⟨fun _ => by simp [tempsAfter, applyEv], ?_, ?_⟩
            · intro p hp
              simp at hp
              rw [hp]
              exact hcol
            · intro a b hab
              simp at hab
              rw [hab.1]
              exact hneq
          · have hren2 : f.renameOk = false := by simpa using hren
            have he : (acceptFile w uuids k f rel m).2.2
                = [Ev.createTemp (f.path ++ ".encrypted")] := by
              simp [acceptFile, hkey, henc, hrand, hname, hren2]
            rw [he]
            refine ⟨fun hex => ?_, ?_, ?_⟩
            · exfalso
              obtain ⟨up, sp, hup⟩ := hex
              simp at hup
            · intro p hp
              simp at hp
            · intro a b hab
              simp at hab
      · have hrand2 : w.RandomFilename = false := by simpa using hrand
        have he : (acceptFile w uuids k f rel m).2.2
            = [Ev.createTemp (f.path ++ ".encrypted"),
               Ev.upload (f.path ++ ".encrypted") (mkSavePath w.Remote rel),
               Ev.remove (f.path ++ ".encrypted"), Ev.save] := by
          simp [acceptFile, hkey, henc, hrand2, uploadAndRecord, hbeq]
        rw [he]
        refine ⟨fun _ => by simp [tempsAfter, applyEv], ?_, ?_⟩
        · intro p hp
          simp at hp
          rw [hp]
          exact hneq
        · intro a b hab
          simp at hab
    · have henc2 : f.encryptOk = false := by simpa using henc
      have he : (acceptFile w uuids k f rel m).2.2 = [] := by
        simp [acceptFile, hkey, henc2]
      rw [he]
      refine ⟨fun _ => rfl, ?_, ?_⟩
      · intro p hp
        simp at hp
      · intro a b hab
        simp at hab

/-- C7 corrected: whenever the scan body actually hands an artifact to the
upload collaborator, every temporary artifact it created for that file (the
encrypted copy, and the renamed copy when renaming occurred) is gone again
by the end of the file's processing, whether the upload succeeded or failed
(the outcome is not even observed); the source file itself is never the
target of a removal nor the source of a rename.  The hypothesis excludes
the degenerate coincidence that the freshly minted random name makes the
renamed artifact path collide with the source path.  When the pre-upload
rename fails, however, the encrypted copy is left behind, which is the
counterexample to the claim as stated. -/
theorem C7_amended_pipeline_cleanup (w : WatchEntry) (uuids : Nat → String) (k : Nat)
    (f : FileObs)
    (hcol : goJoin (goDir (f.path ++ ".encrypted")) (uuids k) ≠ f.path) :
    ((∃ up sp, Ev.upload up sp ∈ (stepFile w uuids k f).2.2) →
        tempsAfter (stepFile w uuids k f).2.2 = [])
    ∧ (∀ p, Ev.remove p ∈ (stepFile w uuids k f).2.2 → p ≠ f.path)
    ∧ (∀ a b, Ev.rename a b ∈ (stepFile w uuids k f).2.2 → a ≠ f.path) := by
  by_cases hstat : (f.statErr || f.isDir) = true
  · have he : (stepFile w uuids k f).2.2 = [] := by simp [stepFile, hstat]
    rw [he]
    exact ⟨fun _ => rfl, fun p hp => absurd hp (by simp), fun a b hab => absurd hab (by simp)⟩
  · have hstat2 : (f.statErr || f.isDir) = false := by simpa using hstat
    have hse : f.statErr = false := (Bool.or_eq_false_iff.mp hstat2).1
    have hdir : f.isDir = false := (Bool.or_eq_false_iff.mp hstat2).2
    cases hm : f.md5 with
    | none =>
      have he : (stepFile w uuids k f).2.2 = [] := by simp [stepFile, hstat2, hse, hdir, hm]
      rw [he]
      exact ⟨fun _ => rfl, fun p hp => absurd hp (by simp), fun a b hab => absurd hab (by simp)⟩
    | some m =>
      by_cases hfp : fingerprintSame w (relOf w f) m = true
      · have he : (stepFile w uuids k f).2.2 = [] := by
          simp [stepFile, hstat2, hse, hdir, hm, hfp]
        rw [he]
        exact ⟨fun _ => rfl, fun p hp => absurd hp (by simp), fun a b hab => absurd hab (by simp)⟩
      · have hfp2 : fingerprintSame w (relOf w f) m = false := by simpa using hfp
        by_cases hig : shouldIgnore w.patterns (relOf w f) false = true
        · have he : (stepFile w uuids k f).2.2 = [] := by
            simp [stepFile, hstat2, hse, hdir, hm, hfp2, hig]
          rw [he]
          exact ⟨fun _ => rfl, fun p hp => absurd hp (by simp), fun a b hab => absurd hab (by simp)⟩
        · have hig2 : shouldIgnore w.patterns (relOf w f) false = false := by simpa using hig
          rw [stepFile_eq_acceptFile w uuids k f m hse hdir hm hfp2 hig2]
          exact acceptFile_cleanup_spec w uuids k f (relOf w f) m hcol

/-- Witness for the amended C7 at a concrete input where the whole
pipeline runs and the upload is attempted: no temporary artifact remains. -/
theorem C7_amended_pipeline_cleanup_witness :
    goJoin (goDir ("/l/a.txt" ++ ".encrypted")) (exUuids 0) ≠ "/l/a.txt"
    ∧ tempsAfter (stepFile exKeyRandWatch exUuids 0 exObsA).2.2 = [] :=
  ⟨by decide,
   (C7_amended_pipeline_cleanup exKeyRandWatch exUuids 0 exObsA (by decide)).1
     ⟨"/l/u1", "/r", by decide⟩⟩

/-- Counterexample to C7 as stated: when the pre-upload rename of the
encrypted copy fails, the scan body skips the file, no upload is attempted
for it, and the encrypted copy is left on disk and never removed. -/
theorem C7_counterexample_rename_failure_leaks_encrypted_copy :
    (stepFile exKeyRandWatch exUuids 0 exObsARenameFail).2.2
        = [Ev.createTemp "/l/a.txt.encrypted"]
    ∧ tempsAfter (stepFile exKeyRandWatch exUuids 0 exObsARenameFail).2.2
        = ["/l/a.txt.encrypted"] := by
  decide

/-- C9: every upload performed by the scan body is sent to the remote
destination obtained by joining the watch remote root with the relative
directory of the file using the remote separator and cleaning, a relative
directory of dot collapsing to the remote root unchanged; on the concrete
two-file layout a.txt and sub slash b.txt with remote root slash-r, the
two uploads go to slash-r and slash-r-slash-sub respectively. -/
theorem C9_upload_destination :
    (∀ (w : WatchEntry) (uuids : Nat → String) (k : Nat) (f : FileObs) (up sp : String),
        Ev.upload up sp ∈ (stepFile w uuids k f).2.2 →
        sp = mkSavePath w.Remote (relOf w f))
    ∧ (scanAndUpload exPlainWatch exUuids 0 [exObsA, exObsB]).2.2
        = [Ev.upload "/l/a.txt" "/r", Ev.save, Ev.upload "/l/sub/b.txt" "/r/sub", Ev.save]
    ∧ mkSavePath "/r" "a.txt" = "/r"
    ∧ mkSavePath "/r" "sub/b.txt" = "/r/sub" := by
  refine ⟨?_, by decide, by decide, by decide⟩
  intro w uuids k f up sp hup
  exact (stepFile_upload_spec w uuids k f up sp hup).2.2

/-- Witness for C9 at a concrete input: the upload of a.txt goes to the
remote root, which is what the destination formula produces for it. -/
theorem C9_upload_destination_witness :
    Ev.upload "/l/a.txt" "/r" ∈ (stepFile exPlainWatch exUuids 0 exObsA).2.2
    ∧ "/r" = mkSavePath exPlainWatch.Remote (relOf exPlainWatch exObsA) :=
  ⟨by decide,
   C9_upload_destination.1 exPlainWatch exUuids 0 exObsA "/l/a.txt" "/r" (by decide)⟩

/-- C4 is a bug in the source: StartWatch and StopWatch reload the
registry from durable storage before acting, and the running flag carries
the json dash tag, so every reload observes it as false.  Starting the same
watch twice therefore succeeds twice and spawns a second concurrent task
instead of failing with the already-running error, and stopping a watch
that genuinely is running fails with the not-running error instead of
succeeding. -/
theorem C4_running_flag_reset_breaks_state_machine :
    (StartWatch exMgrDisk "/d").2 = none
    ∧ (StartWatch exMgrDisk "/d").1.tasks = 1
    ∧ (StartWatch (StartWatch exMgrDisk "/d").1 "/d").2 = none
    ∧ (StartWatch (StartWatch exMgrDisk "/d").1 "/d").1.tasks = 2
    ∧ (StopWatch (StartWatch exMgrDisk "/d").1 "/d").2 = some SyncErr.notRunning := by
  decide

/-- C8: the state loaders return a fresh empty configuration when no state
file exists, and return a hard error to the caller when a state file is
present but unparseable; the error case installs no empty registry in its
place. -/
theorem C8_load_contract :
    (∀ (cfg0 : Option (List (String × WatchEntry))) (t : Nat),
        mgrLoad ⟨DiskState.missing, cfg0, t⟩ = (⟨DiskState.missing, some [], t⟩, none)
        ∧ mgrLoad ⟨DiskState.corrupt, cfg0, t⟩
            = (⟨DiskState.corrupt, cfg0, t⟩, some SyncErr.loadFailed))
    ∧ loadState StateDisk.missing = Except.ok ⟨"", "", []⟩
    ∧ loadState StateDisk.corrupt = Except.error () :=
  ⟨fun _ _ => ⟨rfl, rfl⟩, rfl, rfl⟩
